import Mathlib

/-!
Verification development for the catalog-matching and grouping engine of
`neuromaps/datasets/annotations.py`.

The Python module is shallowly embedded: catalog records (JSON dicts) become
the `Record` structure with `Option` fields for nullable dict entries, the
keyword-argument constraint mapping becomes `Kwargs` whose entries are
`Option CVal` (absent / single string / list of strings), and the functions
`_match_annot`, `_groupby_match`, `fetch_annotation` (here `fetch_annot`) and
`get_annotations_desc` become Lean functions.  Exceptions are modelled with
`Except PyErr`; I/O performed by `fetch_annotation` is modelled by threading
an explicit filesystem (the list of existing paths) and an explicit trace of
effects.

Modelling notes, applying to the whole file:
* Python's `\S` (non-whitespace) and `\d` (digit) regex classes are modelled
  with `Char.isWhitespace` / `Char.isDigit`; the claims under study only
  involve ASCII filenames, where these agree with Python.
* Python string comparison and the `in` operator are modelled with `String`
  equality and contiguous-substring containment (`strIn`).
-/

set_option maxHeartbeats 1000000

namespace Neuromaps

/-- A value supplied for one keyword argument of `_match_annot`: Python callers
pass either a single string or a list of strings (absence is modelled by
`Option CVal` at the use site). -/
inductive CVal where
  | str (s : String)
  | list (l : List String)
  deriving DecidableEq, Repr

/-- One catalog record (a JSON dict of `osf.json`): the fields read by
`annotations.py`.  Nullable / possibly-missing dict entries are `Option`;
`dset.get(key)` on a missing key yields `none`.  `restricted` models the
visibility partition used by `get_dataset_info`. -/
structure Record where
  source : Option String
  desc : Option String
  space : Option String
  den : Option String
  res : Option String
  hemi : Option String
  tags : Option (List String)
  format : Option String
  fname : String
  relPath : String
  url : String
  checksum : String
  restricted : Bool
  deriving DecidableEq, Repr

/-- The keyword arguments of `_match_annot` / `fetch_annotation`:
`source, desc, space, den, res, hemi, tags, format`, each absent (`none`),
a single string, or a list of strings. -/
structure Kwargs where
  source : Option CVal
  desc : Option CVal
  space : Option CVal
  den : Option CVal
  res : Option CVal
  hemi : Option CVal
  tags : Option CVal
  format : Option CVal
  deriving DecidableEq, Repr

/-- The canonical identity tuple (source, desc, space, den-or-res). -/
abbrev Key := String × String × String × String

/-! ## Python string containment (the `in` operator on strings)

`f in c` for Python strings holds iff `f` occurs in `c` as a contiguous
substring (the empty string occurs in every string). -/

/-- `listPrefixOf f c` : `f` is a prefix of `c` (on character lists). -/
def listPrefixOf : List Char → List Char → Bool
  | [], _ => true
  | _ :: _, [] => false
  | a :: as, b :: bs => a == b && listPrefixOf as bs

/-- `listInfixOf f c` : `f` occurs contiguously inside `c`. -/
def listInfixOf (f : List Char) : List Char → Bool
  | [] => listPrefixOf f []
  | c :: cs => listPrefixOf f (c :: cs) || listInfixOf f cs

/-- Python `f in c` on strings: substring containment. -/
def strIn (f c : String) : Bool := listInfixOf f.toList c.toList

/-! ## `_match_annot`

In the Python loop over `('source', 'desc', 'space', 'hemi', 'tags', 'format')`
the variable `match` starts `True` and is only ever conjoined with further
conditions or set to `False`; it is never reset to `True`.  The loop is
therefore the conjunction of the per-key checks below, followed by the
den/res check. -/

/-- Per-key check for the string-valued keys `source, desc, space, hemi,
format`: absent constraint passes; a present constraint against a missing
record value fails; a single string is an exact-equality test unless it is
the wildcard `"all"`; a list passes iff some element occurs in the record's
value (Python `f in comp`, substring containment). -/
def strKeyOk (comp : Option String) (value : Option CVal) : Bool :=
  match value, comp with
  | none, _ => true
  | some _, none => false
  | some (.str s), some c => if s = "all" then true else decide (c = s)
  | some (.list l), some c => l.any (fun f => strIn f c)

/-- Per-key check for `tags` (the record value is a list): a list constraint
requires every requested tag to be a member of the record's tag list
(`all(f in comp ...)`, list membership).  A single-string constraint cannot
occur after normalisation; Python would compare a list with a string, which
is `False` unless the string is the wildcard `"all"` (skipped before the
comparison). -/
def tagsKeyOk (comp : Option (List String)) (value : Option CVal) : Bool :=
  match value, comp with
  | none, _ => true
  | some _, none => false
  | some (.str s), some _ => if s = "all" then true else false
  | some (.list l), some c => l.all (fun f => decide (f ∈ c))

/-- The values pooled from one keyword (`den` or `res`): a string is wrapped
in a singleton list, a list is taken as is, absence contributes nothing. -/
def cvalList : Option CVal → List String
  | none => []
  | some (.str s) => [s]
  | some (.list l) => l

/-- The combined `denres` pool built by `_match_annot`: all values supplied
under `den`, then all values supplied under `res`. -/
def denresSet (kw : Kwargs) : List String := cvalList kw.den ++ cvalList kw.res

/-- Python `a or b` on an optional string: `a` unless it is falsy
(`None` or `""`), else `b`.  Models `dset.get('den') or dset.get('res')`. -/
def pyOrStr (a b : Option String) : Option String :=
  match a with
  | some s => if s = "" then b else some s
  | none => b

/-- The den/res check: skipped when the pool is empty, otherwise the record's
`den or res` value must be a member of the pool (`None` is never a member). -/
def denresOk (kw : Kwargs) (r : Record) : Bool :=
  if denresSet kw = [] then true
  else
    match pyOrStr r.den r.res with
    | some v => decide (v ∈ denresSet kw)
    | none => false

/-- Conjunction of the six per-key checks of the Python loop. -/
def sixKeysOk (kw : Kwargs) (r : Record) : Bool :=
  strKeyOk r.source kw.source && strKeyOk r.desc kw.desc
    && strKeyOk r.space kw.space && strKeyOk r.hemi kw.hemi
    && tagsKeyOk r.tags kw.tags && strKeyOk r.format kw.format

/-- A record passes `_match_annot` iff the six per-key checks and the den/res
check all pass. -/
def recordMatches (kw : Kwargs) (r : Record) : Bool :=
  sixKeysOk kw r && denresOk kw r

/-- The normalisation at the top of `_match_annot`: a bare string under
`tags` becomes a singleton list. -/
def normTags (kw : Kwargs) : Kwargs :=
  match kw.tags with
  | some (.str s) => { kw with tags := some (.list [s]) }
  | _ => kw

/-- `_match_annot(info, **kwargs)`: the records of `info`, in order, that
satisfy every supplied constraint. -/
def _match_annot (info : List Record) (kw : Kwargs) : List Record :=
  info.filter (fun r => recordMatches (normTags kw) r)

/-! ## The `MATCH` regular expression

MATCH = `source-(\S+)_desc-(\S+)_space-(\S+)_(?:den|res)-(\d+[k|m]\x7b1,2\x7d)_`
applied with `re.search`.  The embedding below implements Python's
semantics directly for this fixed pattern: `re.search` tries every start
position from the left and returns the first position at which the pattern
matches; at a given position `\S+` and `\d+` are greedy with backtracking
(longest first), the repetition of the character class prefers two
characters over one, and `(?:den|res)` tries `den` before `res`.  Note the
character class `[k|m]` contains the literal pipe character in addition to
`k` and `m`.  The matcher is parametrised by the character class `cls` so
that the spec-described class (just `k` and `m`) can be compared with the
source's class. -/

/-- The four captured groups, as character lists. -/
abbrev RawKey := List Char × List Char × List Char × List Char

/-- Consume the literal characters `lit` from the front of `s`. -/
def dropLit : List Char → List Char → Option (List Char)
  | [], s => some s
  | _ :: _, [] => none
  | l :: ls, c :: cs => if l == c then dropLit ls cs else none

/-- Python `\S`: any non-whitespace character. -/
def isNonSpace (c : Char) : Bool := !c.isWhitespace

/-- Greedy `p+` with backtracking: consume one-or-more characters satisfying
`p`, preferring the longest run, and hand the consumed run (in order) and
the remainder to the continuation `k`; on failure of `k`, retry with one
character fewer.  `acc` holds the characters consumed so far, reversed. -/
def plusGreedy (p : Char → Bool) (k : List Char → List Char → Option RawKey) :
    List Char → List Char → Option RawKey
  | acc, [] => if acc.isEmpty then none else k acc.reverse []
  | acc, c :: cs =>
    if p c then
      match plusGreedy p k (c :: acc) cs with
      | some g => some g
      | none => if acc.isEmpty then none else k acc.reverse (c :: cs)
    else if acc.isEmpty then none else k acc.reverse (c :: cs)

/-- After `cls` matched one class character `c1`: try the two-character
reading of the `\x7b1,2\x7d` repetition (second class character then the
literal underscore). -/
def classTwo (cls : Char → Bool) (g1 g2 g3 ds : List Char) (c1 : Char) :
    List Char → Option RawKey
  | c2 :: u :: _ =>
    if cls c2 && (u == '_') then some (g1, g2, g3, ds ++ [c1, c2]) else none
  | _ => none

/-- The one-character reading of the repetition: the literal underscore must
follow directly. -/
def classOne (g1 g2 g3 ds : List Char) (c1 : Char) : List Char → Option RawKey
  | u :: _ => if u == '_' then some (g1, g2, g3, ds ++ [c1]) else none
  | [] => none

/-- `[cls]\x7b1,2\x7d_` after the digits `ds`: greedy, so two class
characters are preferred over one. -/
def classTail (cls : Char → Bool) (g1 g2 g3 ds : List Char) :
    List Char → Option RawKey
  | [] => none
  | c1 :: r1 =>
    if cls c1 then
      match classTwo cls g1 g2 g3 ds c1 r1 with
      | some g => some g
      | none => classOne g1 g2 g3 ds c1 r1
    else none

/-- `(\d+[cls]\x7b1,2\x7d)_` : greedy digits, then the class repetition. -/
def denresTail (cls : Char → Bool) (g1 g2 g3 : List Char) (s : List Char) :
    Option RawKey :=
  plusGreedy Char.isDigit (fun ds r => classTail cls g1 g2 g3 ds r) [] s

/-- The `res` alternative: the literal `_res-` followed by the value. -/
def resBranch (cls : Char → Bool) (g1 g2 g3 : List Char) (r3 : List Char) :
    Option RawKey :=
  match dropLit "_res-".toList r3 with
  | some s4 => denresTail cls g1 g2 g3 s4
  | none => none

/-- Match the whole pattern at the start of `s`. -/
def matchAt (cls : Char → Bool) (s : List Char) : Option RawKey :=
  match dropLit "source-".toList s with
  | none => none
  | some s1 =>
    plusGreedy isNonSpace (fun g1 r1 =>
      match dropLit "_desc-".toList r1 with
      | none => none
      | some s2 =>
        plusGreedy isNonSpace (fun g2 r2 =>
          match dropLit "_space-".toList r2 with
          | none => none
          | some s3 =>
            plusGreedy isNonSpace (fun g3 r3 =>
              match dropLit "_den-".toList r3 with
              | some s4 =>
                (match denresTail cls g1 g2 g3 s4 with
                 | some g => some g
                 | none => resBranch cls g1 g2 g3 r3)
              | none => resBranch cls g1 g2 g3 r3) [] s3) [] s2) [] s1

/-- `re.search`: try each start position from the left. -/
def regexSearch (cls : Char → Bool) : List Char → Option RawKey
  | [] => none
  | c :: cs =>
    match matchAt cls (c :: cs) with
    | some g => some g
    | none => regexSearch cls cs

/-- The character class `[k|m]` of the source: `k`, the literal pipe, `m`. -/
def kmPipe (c : Char) : Bool := c == 'k' || c == '|' || c == 'm'

/-- `MATCH.search(fn).groups()` as an `Option`: `none` models the
`AttributeError` raised from `None.groups()` when the pattern is absent
(the failure the spec calls `MalformedNameError`). -/
def extractKey (fn : String) : Option Key :=
  (regexSearch kmPipe fn.toList).map
    (fun g => (String.mk g.1, String.mk g.2.1, String.mk g.2.2.1, String.mk g.2.2.2))

/-- Modelled from the spec: the spec describes the den/res value as digits
followed by 1-2 letters drawn from `k` and `m` only (section 4.1), without
the literal pipe admitted by the source's character class `[k|m]`.  Used
solely to compare the spec's description with the source's `extractKey`. -/
def kmOnly (c : Char) : Bool := c == 'k' || c == 'm'

/-- Modelled from the spec: canonical-key extraction as the spec words it,
identical to `extractKey` except that the trailing letters must come from
`k`, `m` (no pipe). -/
def specExtractKey (fn : String) : Option Key :=
  (regexSearch kmOnly fn.toList).map
    (fun g => (String.mk g.1, String.mk g.2.1, String.mk g.2.2.1, String.mk g.2.2.2))

/-! ## `_groupby_match`

The Python function folds the filenames into a `defaultdict(list)` — an
insertion-ordered dictionary whose buckets are appended to — and aborts with
an exception at the first filename on which `MATCH.search` returns `None`.
Buckets with one member are then replaced by that member, and with
`return_single=True` a grouping of exactly one bucket is unwrapped to that
bucket's value. -/

/-- Errors of the embedded Python functions. -/
inductive PyErr where
  /-- `MATCH.search(fn)` returned `None` and `.groups()` raised
  (the spec's `MalformedNameError`). -/
  | malformedName
  /-- The `ValueError` raised by `fetch_annotation` when no constraint at
  all is supplied (the spec's `ValidationError`). -/
  | validation
  /-- A failure of the external `_fetch_file` capability (network error or
  checksum mismatch). -/
  | fetchFailed
  /-- The `TypeError` raised by `raise warnings.warn(...)`
  (`warnings.warn` returns `None`, and `raise None` is illegal). -/
  | typeError
  deriving DecidableEq, Repr

/-- A bucket value after post-processing: the single member, or the ordered
list of members when there are more than one. -/
inductive GroupVal where
  | single (f : String)
  | multi (fs : List String)
  deriving DecidableEq, Repr

/-- The shape returned by `_groupby_match`: an insertion-ordered mapping, or
(with `return_single=True` and exactly one bucket) the bucket's value. -/
inductive GroupOut where
  | dict (m : List (Key × GroupVal))
  | value (v : GroupVal)
  deriving DecidableEq, Repr

/-- `out[key].append(fn)` on an insertion-ordered dictionary represented as
an association list: append to the bucket of `k` if present, otherwise add a
new bucket at the end. -/
def addToBuckets (bs : List (Key × List String)) (k : Key) (fn : String) :
    List (Key × List String) :=
  match bs with
  | [] => [(k, [fn])]
  | (k', v) :: rest =>
    if k' = k then (k', v ++ [fn]) :: rest else (k', v) :: addToBuckets rest k fn

/-- The grouping loop of `_groupby_match`: abort at the first filename the
pattern does not match. -/
def buildBuckets : List String → List (Key × List String) →
    Except PyErr (List (Key × List String))
  | [], acc => .ok acc
  | fn :: rest, acc =>
    match extractKey fn with
    | none => .error .malformedName
    | some k => buildBuckets rest (addToBuckets acc k fn)

/-- `v if len(v) > 1 else v[0]` (buckets are never empty in the flow of
`_groupby_match`; the empty case is given an arbitrary value). -/
def collapseVal (v : List String) : GroupVal :=
  if v.length > 1 then .multi v else .single (v.headD "")

/-- `_groupby_match(fnames, return_single)`. -/
def _groupby_match (fnames : List String) (returnSingle : Bool) :
    Except PyErr GroupOut :=
  match buildBuckets fnames [] with
  | .error e => .error e
  | .ok buckets =>
    let out := buckets.map (fun kv => (kv.1, collapseVal kv.2))
    if returnSingle && decide (out.length = 1) then
      match out with
      | [kv] => .ok (.value kv.2)
      | _ => .ok (.dict out)
    else .ok (.dict out)

/-! ### Specification-side description of the grouping

`groupPairs` is the independent description the grouping theorems compare
the fold against: keys in order of first appearance, each bucket the list of
values carrying that key, in order. -/

/-- The values of `ps` whose key is `k`, in order. -/
def keyVals (ps : List (Key × String)) (k : Key) : List String :=
  (ps.filter (fun p => decide (p.1 = k))).map Prod.snd

/-- First-seen-order grouping of key-value pairs. -/
def groupPairs : List (Key × String) → List (Key × List String)
  | [] => []
  | p :: rest =>
    (p.1, p.2 :: keyVals rest p.1)
      :: groupPairs (rest.filter (fun q => !decide (q.1 = p.1)))
termination_by l => l.length
decreasing_by
  simp only [List.length_cons]
  exact Nat.lt_succ_of_le (List.length_filter_le _ _)

/-- Extract the canonical key of every filename; `none` as soon as one
fails. -/
def extractPairs : List String → Option (List (Key × String))
  | [] => some []
  | fn :: rest =>
    match extractKey fn with
    | none => none
    | some k =>
      match extractPairs rest with
      | none => none
      | some ps => some ((k, fn) :: ps)

/-! ## `fetch_annotation` (embedded as `fetch_annot`)

The function is embedded as a pure function over an explicit environment
(`FetchEnv`), an explicit filesystem (the list of paths that exist), and an
explicit trace of the externally observable effects, in program order. -/

/-- The externally observable effects of `fetch_annotation`, in program
order. -/
inductive Effect where
  /-- `_get_token(token=token)` : token resolution. -/
  | getToken
  /-- `get_data_dir(data_dir=data_dir)` : cache-root resolution. -/
  | getDataDir
  /-- `get_dataset_info('annotations', return_restricted)` : catalog read. -/
  | readCatalog
  /-- `_get_session(token=token)` : session construction. -/
  | getSession
  /-- `fn.exists()` : cache existence check. -/
  | checkExists (p : String)
  /-- `_fetch_file(url, ...)` : invocation of the external fetch
  capability (the network call). -/
  | fetchFile (url : String)
  /-- `shutil.move(dl_file, fn)` : atomic placement of the verified file. -/
  | movedTo (p : String)
  /-- `warnings.warn(...)` for the beliveau2017/norgaard2021 MNI152
  caveat. -/
  | warnCaveat
  deriving DecidableEq, Repr

/-- The external collaborators of `fetch_annotation`. -/
structure FetchEnv where
  /-- The environment variable NEUROMAPS_OSF_TOKEN, if set. -/
  envToken : Option String
  /-- The environment variable NEUROMAPS_DATA, if set. -/
  envDataDir : Option String
  /-- The full `annotations` catalog, restricted records included. -/
  catalog : List Record
  /-- Whether `_fetch_file(url, ..., md5sum=checksum, ...)` succeeds
  (downloads and passes the integrity check) for a given url/checksum. -/
  fetchOk : String → String → Bool
  deriving Inhabited

/-- Token resolution per the docstring of `fetch_annotation`: the explicit
argument, else the environment variable, else nothing. -/
def resolveToken (explicit envVar : Option String) : Option String :=
  match explicit with
  | some t => some t
  | none => envVar

/-- Cache-root resolution per the docstring of `fetch_annotation`: the
explicit argument, else NEUROMAPS_DATA, else `~/neuromaps-data`. -/
def resolveDataDir (explicit envVar : Option String) : String :=
  match explicit with
  | some d => d
  | none =>
    match envVar with
    | some d => d
    | none => "~/neuromaps-data"

/-- `return_restricted = False if (token is None or not token) else True`:
the empty string is falsy. -/
def returnRestrictedOf : Option String → Bool
  | none => false
  | some t => !decide (t = "")

/-- Modelled from the spec: `get_dataset_info('annotations', rr)` lives in
`neuromaps/datasets/utils.py`, which is not part of the sources under
study; per the spec's External Interfaces section the catalog is *queried
with a visibility flag that includes/excludes records marked restricted*. -/
def get_dataset_info (catalog : List Record) (returnRestricted : Bool) :
    List Record :=
  if returnRestricted then catalog else catalog.filter (fun r => !r.restricted)

/-- The record set `info` computed by `fetch_annotation` for a resolved
token: the catalog at the token's visibility, filtered by the constraints. -/
def resolvedInfo (catalog : List Record) (token : Option String) (kw : Kwargs) :
    List Record :=
  _match_annot (get_dataset_info catalog (returnRestrictedOf token)) kw

/-- The `supplied` check at the top of `fetch_annotation`: at least one of
the eight constraint parameters is not `None`. -/
def suppliedAny (kw : Kwargs) : Bool :=
  kw.source.isSome || kw.desc.isSome || kw.space.isSome || kw.den.isSome
    || kw.res.isSome || kw.hemi.isSome || kw.tags.isSome || kw.format.isSome

/-- `Path(data_dir) / 'annotations' / dset['rel_path'] / dset['fname']`. -/
def expectedPath (d : String) (r : Record) : String :=
  d ++ "/annotations/" ++ r.relPath ++ "/" ++ r.fname

/-- The download loop of `fetch_annotation`: for each matched record, check
the cache, fetch and move on a miss, abort on a failed fetch.  Returns the
collected paths, the filesystem after the loop, and the effect trace. -/
def fetchLoop (env : FetchEnv) (d : String) :
    List Record → List String →
      Except PyErr (List String) × List String × List Effect
  | [], fs => (.ok [], fs, [])
  | r :: rest, fs =>
    let fn := expectedPath d r
    if fn ∈ fs then
      let t := fetchLoop env d rest fs
      (t.1.map (fun ps => fn :: ps), t.2.1, .checkExists fn :: t.2.2)
    else if env.fetchOk r.url r.checksum then
      let t := fetchLoop env d rest (fn :: fs)
      (t.1.map (fun ps => fn :: ps), t.2.1,
        .checkExists fn :: .fetchFile r.url :: .movedTo fn :: t.2.2)
    else
      (.error .fetchFailed, fs, [.checkExists fn, .fetchFile r.url])

/-- The advisory-warning check after the loop: some matched record has
source beliveau2017 or norgaard2021 and space MNI152. -/
def warnEffects (info : List Record) : List Effect :=
  if info.any (fun r =>
      (decide (r.source = some "beliveau2017")
        || decide (r.source = some "norgaard2021"))
      && decide (r.space = some "MNI152"))
  then [.warnCaveat] else []

/-- The effects of the prologue of `fetch_annotation` once validation has
passed: token resolution, cache-root resolution, catalog read, session
construction. -/
def preEffects : List Effect :=
  [.getToken, .getDataDir, .readCatalog, .getSession]

/-- `fetch_annotation(source=..., ..., return_single=rs, token=targ,
data_dir=darg)` over environment `env` and filesystem `fs0`: result,
filesystem after the call, effect trace. -/
def fetch_annot (env : FetchEnv) (fs0 : List String) (kw : Kwargs)
    (targ darg : Option String) (rs : Bool) :
    Except PyErr GroupOut × List String × List Effect :=
  if suppliedAny kw then
    match fetchLoop env (resolveDataDir darg env.envDataDir)
        (resolvedInfo env.catalog (resolveToken targ env.envToken) kw) fs0 with
    | (.error e, fs', effs) => (.error e, fs', preEffects ++ effs)
    | (.ok ps, fs', effs) =>
      (_groupby_match ps rs, fs',
        preEffects ++ effs
          ++ warnEffects (resolvedInfo env.catalog (resolveToken targ env.envToken) kw))
  else (.error .validation, fs0, [])

/-! ## `get_annotations_desc`

The side catalog (`info.json`) is embedded as a list of `SideRec`; pandas'
`combine_first` on the den/res columns is `Option.orElse`-like: den unless
missing, else res.  The membership check and the
`raise warnings.warn(...)` statement are embedded faithfully: the warning
message is emitted, `warnings.warn` returns `None`, and `raise None` throws
a `TypeError`, so the function aborts whenever some requested key is
unavailable. -/

/-- One entry of the `annotations` list of `info.json`, restricted to the
fields `get_annotations_desc` reads. -/
structure SideRec where
  source : String
  desc : String
  space : String
  den : Option String
  res : Option String
  fullDesc : String
  deriving DecidableEq, Repr

/-- `annot.denres = annot.den.combine_first(annot.res)`. -/
def sideDenres (s : SideRec) : Option String :=
  match s.den with
  | some d => some d
  | none => s.res

/-- The `annot.key` column: defined when den-or-res is present (a missing
value would be `NaN`, which never equals a requested string tuple). -/
def sideKey (s : SideRec) : Option Key :=
  match sideDenres s with
  | some dr => some (s.source, s.desc, s.space, dr)
  | none => none

/-- `get_annotations_desc(annots)` : result (key and full description per
requested annotation, in request order, one row per catalog entry with that
key) and the list of warning messages emitted. -/
def get_annotations_desc (side : List SideRec) (annots : List Key) :
    Except PyErr (List (Key × String)) × List String :=
  let notAvail := annots.filter (fun a => !side.any (fun s => sideKey s == some a))
  if notAvail.isEmpty then
    let avail := annots.filter (fun a => !notAvail.contains a)
    (.ok (avail.flatMap (fun a =>
      (side.filter (fun s => sideKey s == some a)).map (fun s => (a, s.fullDesc)))),
     [])
  else
    (.error .typeError, ["Annotations are not available."])

/-! ## Constraint-mapping builders used by the theorems -/

/-- No constraint supplied at all. -/
def kwEmpty : Kwargs := ⟨none, none, none, none, none, none, none, none⟩

/-- Only `source` constrained. -/
def kwSourceOnly (v : CVal) : Kwargs :=
  ⟨some v, none, none, none, none, none, none, none⟩

/-- Only `desc` constrained. -/
def kwDescOnly (v : CVal) : Kwargs :=
  ⟨none, some v, none, none, none, none, none, none⟩

/-- Only `space` constrained. -/
def kwSpaceOnly (v : CVal) : Kwargs :=
  ⟨none, none, some v, none, none, none, none, none⟩

/-- Only `den` constrained. -/
def kwDenOnly (v : CVal) : Kwargs :=
  ⟨none, none, none, some v, none, none, none, none⟩

/-- Only `res` constrained. -/
def kwResOnly (v : CVal) : Kwargs :=
  ⟨none, none, none, none, some v, none, none, none⟩

/-- Only `hemi` constrained. -/
def kwHemiOnly (v : CVal) : Kwargs :=
  ⟨none, none, none, none, none, some v, none, none⟩

/-- Only `tags` constrained. -/
def kwTagsOnly (v : CVal) : Kwargs :=
  ⟨none, none, none, none, none, none, some v, none⟩

/-- Only `format` constrained. -/
def kwFormatOnly (v : CVal) : Kwargs :=
  ⟨none, none, none, none, none, none, none, some v⟩

/-! ## Characterisation lemmas for `_match_annot` -/

theorem mem_match_annot {info : List Record} {kw : Kwargs} {r : Record} :
    r ∈ _match_annot info kw ↔ r ∈ info ∧ recordMatches (normTags kw) r = true := by
  simp [_match_annot, List.mem_filter]

theorem strKeyOk_list_iff (comp : Option String) (vs : List String) :
    strKeyOk comp (some (.list vs)) = true ↔
      ∃ s, comp = some s ∧ ∃ v ∈ vs, strIn v s = true := by
  cases comp <;> simp [strKeyOk, List.any_eq_true]

theorem tagsKeyOk_list_iff (comp : Option (List String)) (vs : List String) :
    tagsKeyOk comp (some (.list vs)) = true ↔
      ∃ ts, comp = some ts ∧ ∀ t ∈ vs, t ∈ ts := by
  cases comp <;> simp [tagsKeyOk, List.all_eq_true]

theorem strKeyOk_wildcard (comp : Option String) :
    strKeyOk comp (some (.str "all")) = comp.isSome := by
  cases comp <;> simp [strKeyOk]

theorem strKeyOk_none (comp : Option String) : strKeyOk comp none = true := by
  cases comp <;> rfl

theorem tagsKeyOk_none (comp : Option (List String)) : tagsKeyOk comp none = true := by
  cases comp <;> rfl

/-- The record's den-or-res identity: `den` when non-null, else `res` (the
mutually exclusive pair of the data model). -/
def denOrRes (r : Record) : Option String :=
  match r.den with
  | some v => some v
  | none => r.res

/-- A record whose every nullable field is absent and whose string fields
are empty; base for the concrete counterexample records. -/
def baseRec : Record :=
  ⟨none, none, none, none, none, none, none, none, "", "", "", "", false⟩

/-! ## Claim C1 -/

/-- The record of the C1 counterexample: `format` is `"xyz"`. -/
def c1rec : Record := { baseRec with format := some "xyz" }

/-- Claim C1, counterexample: With the list constraint `format=["x"]` the
matcher *includes* the record whose format is `"xyz"`, although `"xyz"` is
not equal to any requested value: Python's `f in comp` on strings is
substring containment, not equality. -/
theorem c1_counterexample :
    _match_annot [c1rec] (kwFormatOnly (.list ["x"])) = [c1rec]
      ∧ ¬ ∃ v ∈ (["x"] : List String), c1rec.format = some v := by
  decide

/-- Claim C1, amended: For every catalog and list-valued constraint: a
`tags` list includes a record iff the record has a tag list containing
every requested tag (conjunction); a list on any of the five string-valued
attributes (source, desc, space, hemi, format) includes a record iff the
record's value is present and **contains at least one requested value as a
substring** (Python `in`; disjunction) — exact equality is only the special
case of a substring of full length. -/
theorem c1_list_constraint_semantics (info : List Record) (vs : List String)
    (r : Record) :
    (r ∈ _match_annot info (kwTagsOnly (.list vs)) ↔
      r ∈ info ∧ ∃ ts, r.tags = some ts ∧ ∀ t ∈ vs, t ∈ ts)
  ∧ (r ∈ _match_annot info (kwSourceOnly (.list vs)) ↔
      r ∈ info ∧ ∃ s, r.source = some s ∧ ∃ v ∈ vs, strIn v s = true)
  ∧ (r ∈ _match_annot info (kwDescOnly (.list vs)) ↔
      r ∈ info ∧ ∃ s, r.desc = some s ∧ ∃ v ∈ vs, strIn v s = true)
  ∧ (r ∈ _match_annot info (kwSpaceOnly (.list vs)) ↔
      r ∈ info ∧ ∃ s, r.space = some s ∧ ∃ v ∈ vs, strIn v s = true)
  ∧ (r ∈ _match_annot info (kwHemiOnly (.list vs)) ↔
      r ∈ info ∧ ∃ s, r.hemi = some s ∧ ∃ v ∈ vs, strIn v s = true)
  ∧ (r ∈ _match_annot info (kwFormatOnly (.list vs)) ↔
      r ∈ info ∧ ∃ s, r.format = some s ∧ ∃ v ∈ vs, strIn v s = true) := by
  refine ⟨?_, ?_, ?_, ?_, ?_, ?_⟩ <;> rw [mem_match_annot]
  · rw [show recordMatches (normTags (kwTagsOnly (.list vs))) r = true ↔
        ∃ ts, r.tags = some ts ∧ ∀ t ∈ vs, t ∈ ts from by
      simp [normTags, kwTagsOnly, recordMatches, sixKeysOk, strKeyOk_none,
        denresOk, denresSet, cvalList, tagsKeyOk_list_iff]]
  · rw [show recordMatches (normTags (kwSourceOnly (.list vs))) r = true ↔
        ∃ s, r.source = some s ∧ ∃ v ∈ vs, strIn v s = true from by
      simp [normTags, kwSourceOnly, recordMatches, sixKeysOk, strKeyOk_none,
        tagsKeyOk_none, denresOk, denresSet, cvalList, strKeyOk_list_iff]]
  · rw [show recordMatches (normTags (kwDescOnly (.list vs))) r = true ↔
        ∃ s, r.desc = some s ∧ ∃ v ∈ vs, strIn v s = true from by
      simp [normTags, kwDescOnly, recordMatches, sixKeysOk, strKeyOk_none,
        tagsKeyOk_none, denresOk, denresSet, cvalList, strKeyOk_list_iff]]
  · rw [show recordMatches (normTags (kwSpaceOnly (.list vs))) r = true ↔
        ∃ s, r.space = some s ∧ ∃ v ∈ vs, strIn v s = true from by
      simp [normTags, kwSpaceOnly, recordMatches, sixKeysOk, strKeyOk_none,
        tagsKeyOk_none, denresOk, denresSet, cvalList, strKeyOk_list_iff]]
  · rw [show recordMatches (normTags (kwHemiOnly (.list vs))) r = true ↔
        ∃ s, r.hemi = some s ∧ ∃ v ∈ vs, strIn v s = true from by
      simp [normTags, kwHemiOnly, recordMatches, sixKeysOk, strKeyOk_none,
        tagsKeyOk_none, denresOk, denresSet, cvalList, strKeyOk_list_iff]]
  · rw [show recordMatches (normTags (kwFormatOnly (.list vs))) r = true ↔
        ∃ s, r.format = some s ∧ ∃ v ∈ vs, strIn v s = true from by
      simp [normTags, kwFormatOnly, recordMatches, sixKeysOk, strKeyOk_none,
        tagsKeyOk_none, denresOk, denresSet, cvalList, strKeyOk_list_iff]]

/-! ## Claim C2 -/

/-- The record of the C2 counterexample: it has a non-null tag list. -/
def c2rec : Record := { baseRec with tags := some ["x"] }

/-- Claim C2, counterexample: The wildcard does not extend to `tags`: the
single string `"all"` under `tags` is first normalised to the list
`["all"]`, so it selects records carrying the literal tag `"all"` — the
record with the non-null tag list `["x"]` is *excluded*, not returned. -/
theorem c2_counterexample :
    _match_annot [c2rec] (kwTagsOnly (.str "all")) = []
      ∧ c2rec.tags.isSome = true := by
  decide

/-- Claim C2, amended: For every catalog: the single-string wildcard `"all"`
on any of the five string-valued attributes returns exactly the records
whose value for that attribute is non-null, and supplying no constraint
leaves the catalog unfiltered; for `tags`, however, a bare string `s`
(including `"all"`) is normalised to the list `[s]` and selects the records
whose tag list contains `s` literally. -/
theorem c2_wildcard_semantics (info : List Record) (s : String) :
    _match_annot info (kwSourceOnly (.str "all"))
        = info.filter (fun r => r.source.isSome)
  ∧ _match_annot info (kwDescOnly (.str "all"))
        = info.filter (fun r => r.desc.isSome)
  ∧ _match_annot info (kwSpaceOnly (.str "all"))
        = info.filter (fun r => r.space.isSome)
  ∧ _match_annot info (kwHemiOnly (.str "all"))
        = info.filter (fun r => r.hemi.isSome)
  ∧ _match_annot info (kwFormatOnly (.str "all"))
        = info.filter (fun r => r.format.isSome)
  ∧ _match_annot info (kwTagsOnly (.str s))
        = info.filter (fun r =>
            match r.tags with
            | some ts => decide (s ∈ ts)
            | none => false)
  ∧ _match_annot info kwEmpty = info := by
  refine ⟨?_, ?_, ?_, ?_, ?_, ?_, ?_⟩
  · exact List.filter_congr (fun r _ => by
      simp [normTags, kwSourceOnly, recordMatches, sixKeysOk, strKeyOk_none,
        tagsKeyOk_none, denresOk, denresSet, cvalList, strKeyOk_wildcard])
  · exact List.filter_congr (fun r _ => by
      simp [normTags, kwDescOnly, recordMatches, sixKeysOk, strKeyOk_none,
        tagsKeyOk_none, denresOk, denresSet, cvalList, strKeyOk_wildcard])
  · exact List.filter_congr (fun r _ => by
      simp [normTags, kwSpaceOnly, recordMatches, sixKeysOk, strKeyOk_none,
        tagsKeyOk_none, denresOk, denresSet, cvalList, strKeyOk_wildcard])
  · exact List.filter_congr (fun r _ => by
      simp [normTags, kwHemiOnly, recordMatches, sixKeysOk, strKeyOk_none,
        tagsKeyOk_none, denresOk, denresSet, cvalList, strKeyOk_wildcard])
  · exact List.filter_congr (fun r _ => by
      simp [normTags, kwFormatOnly, recordMatches, sixKeysOk, strKeyOk_none,
        tagsKeyOk_none, denresOk, denresSet, cvalList, strKeyOk_wildcard])
  · exact List.filter_congr (fun r _ => by
      cases htags : r.tags <;>
        simp [normTags, kwTagsOnly, recordMatches, sixKeysOk, strKeyOk_none,
          denresOk, denresSet, cvalList, tagsKeyOk, htags])
  · rw [_match_annot, List.filter_eq_self]
    intro r _
    simp [normTags, kwEmpty, recordMatches, sixKeysOk, strKeyOk_none,
      tagsKeyOk_none, denresOk, denresSet, cvalList]

/-! ## Claim C3 -/

/-- Claim C3: All non-null values supplied under `den` or `res` are pooled
into the single constraint set `denresSet`; when that set is non-empty, any
record the matcher includes has a non-null den-or-res value that is a
member of the set (under the catalog invariant that `den` and `res` are
never both non-null); when neither `den` nor `res` is supplied, the den/res
check is skipped entirely and the matcher reduces to the six per-key
checks. -/
theorem c3_denres_pooling (info : List Record) (kw : Kwargs)
    (hinv : ∀ r ∈ info, r.den = none ∨ r.res = none) :
    (denresSet kw ≠ [] → ∀ r ∈ _match_annot info kw,
      ∃ v, denOrRes r = some v ∧ v ∈ denresSet kw)
  ∧ (kw.den = none → kw.res = none →
      _match_annot info kw = info.filter (fun r => sixKeysOk (normTags kw) r)) := by
  constructor
  · intro hset r hr
    rw [mem_match_annot] at hr
    obtain ⟨hin, hm⟩ := hr
    rw [recordMatches, Bool.and_eq_true] at hm
    have hden : denresOk (normTags kw) r = true := hm.2
    have hsets : denresSet (normTags kw) = denresSet kw := by
      rcases h : kw.tags with _ | v
      · simp [normTags, h, denresSet]
      · cases v <;> simp [normTags, h, denresSet]
    rw [denresOk, hsets, if_neg hset] at hden
    rcases hcase : pyOrStr r.den r.res with _ | v
    · rw [hcase] at hden
      exact absurd hden (by simp)
    · rw [hcase] at hden
      refine ⟨v, ?_, by simpa using hden⟩
      rcases hd : r.den with _ | s
      · rw [hd] at hcase
        simp only [pyOrStr] at hcase
        rw [denOrRes, hd, hcase]
      · rcases hinv r hin with h' | h'
        · exact absurd hd (by simp [h'])
        · rw [hd, h'] at hcase
          simp only [pyOrStr] at hcase
          by_cases hs : s = ""
          · rw [if_pos hs] at hcase
            exact absurd hcase (by simp)
          · rw [if_neg hs] at hcase
            rw [denOrRes, hd, hcase]
  · intro hd hr
    have hsets : denresSet (normTags kw) = [] := by
      rcases h : kw.tags with _ | v
      · simp [normTags, h, denresSet, hd, hr, cvalList]
      · cases v <;> simp [normTags, h, denresSet, hd, hr, cvalList]
    exact List.filter_congr (fun r _ => by
      simp [recordMatches, denresOk, hsets])

/-! ## Grouping lemmas -/

/-- The keys of a bucket list, in order. -/
def bKeys (bs : List (Key × List String)) : List Key := bs.map Prod.fst

theorem keyVals_cons (p : Key × String) (ps : List (Key × String)) (k : Key) :
    keyVals (p :: ps) k = if p.1 = k then p.2 :: keyVals ps k else keyVals ps k := by
  by_cases h : p.1 = k <;> simp [keyVals, List.filter_cons, h]

theorem addToBuckets_mem (bs : List (Key × List String)) (k : Key) (f : String)
    (h : k ∈ bKeys bs) (hnd : (bKeys bs).Nodup) :
    addToBuckets bs k f
      = bs.map (fun kv => if kv.1 = k then (kv.1, kv.2 ++ [f]) else kv) := by
  induction bs with
  | nil => simp [bKeys] at h
  | cons kv rest ih =>
    obtain ⟨k', v⟩ := kv
    simp only [bKeys, List.map_cons, List.mem_cons, List.nodup_cons] at h hnd
    by_cases he : k' = k
    · subst he
      have hrest : List.map
          (fun kv => if (kv : Key × List String).1 = k' then (kv.1, kv.2 ++ [f]) else kv) rest
          = List.map id rest := by
        apply List.map_congr_left
        intro kv hkv
        rw [if_neg]
        · rfl
        · intro hk
          exact hnd.1 (hk ▸ List.mem_map_of_mem Prod.fst hkv)
      simp only [addToBuckets, List.map_cons, hrest, List.map_id]
      simp
    · have hk : k ∈ bKeys rest := by
        rcases h with h | h
        · exact absurd h.symm he
        · exact h
      simp only [addToBuckets, List.map_cons]
      rw [if_neg he, if_neg he, ih hk hnd.2]

theorem addToBuckets_notMem (bs : List (Key × List String)) (k : Key) (f : String)
    (h : k ∉ bKeys bs) :
    addToBuckets bs k f = bs ++ [(k, [f])] := by
  induction bs with
  | nil => rfl
  | cons kv rest ih =>
    obtain ⟨k', v⟩ := kv
    simp only [bKeys, List.map_cons, List.mem_cons] at h
    push_neg at h
    have hne : ¬ k' = k := fun hh => h.1 hh.symm
    simp only [addToBuckets, if_neg hne, List.cons_append]
    rw [ih h.2]

/-- The buckets of `acc` with the values of `ps` carrying their key
appended. -/
def extendAcc (acc : List (Key × List String)) (ps : List (Key × String)) :
    List (Key × List String) :=
  acc.map (fun kv => (kv.1, kv.2 ++ keyVals ps kv.1))

/-- The pairs of `ps` whose key is not among `seen`. -/
def droppingKeys (ps : List (Key × String)) (seen : List Key) :
    List (Key × String) :=
  ps.filter (fun q => !decide (q.1 ∈ seen))

theorem keyVals_droppingKeys (ps : List (Key × String)) (seen : List Key) (k : Key)
    (h : k ∉ seen) :
    keyVals (droppingKeys ps seen) k = keyVals ps k := by
  unfold keyVals droppingKeys
  rw [List.filter_filter]
  congr 1
  apply List.filter_congr
  intro a _
  by_cases ha : a.1 = k
  · simp [ha, h]
  · simp [ha]

theorem droppingKeys_snoc (ps : List (Key × String)) (seen : List Key) (k : Key) :
    (droppingKeys ps seen).filter (fun q => !decide (q.1 = k))
      = droppingKeys ps (seen ++ [k]) := by
  unfold droppingKeys
  rw [List.filter_filter]
  apply List.filter_congr
  intro a _
  by_cases h1 : a.1 ∈ seen <;> by_cases h2 : a.1 = k <;> simp [h1, h2]

theorem bKeys_append (acc : List (Key × List String)) (x : Key × List String) :
    bKeys (acc ++ [x]) = bKeys acc ++ [x.1] := by
  simp [bKeys]

theorem foldAdd_eq (ps : List (Key × String)) :
    ∀ acc, (bKeys acc).Nodup →
      ps.foldl (fun b p => addToBuckets b p.1 p.2) acc
        = extendAcc acc ps ++ groupPairs (droppingKeys ps (bKeys acc)) := by
  induction ps with
  | nil =>
    intro acc hnd
    simp [extendAcc, droppingKeys, keyVals, groupPairs]
  | cons p rest ih =>
    intro acc hnd
    rw [List.foldl_cons]
    by_cases hmem : p.1 ∈ bKeys acc
    · rw [addToBuckets_mem acc p.1 p.2 hmem hnd]
      have hkeys : bKeys (acc.map (fun kv => if kv.1 = p.1 then (kv.1, kv.2 ++ [p.2]) else kv))
          = bKeys acc := by
        unfold bKeys
        rw [List.map_map]
        apply List.map_congr_left
        intro kv _
        by_cases hk : kv.1 = p.1 <;> simp [hk]
      rw [ih _ (hkeys ▸ hnd)]
      rw [hkeys]
      congr 1
      · unfold extendAcc
        rw [List.map_map]
        apply List.map_congr_left
        intro kv _
        by_cases hk : kv.1 = p.1
        · simp only [Function.comp_apply, if_pos hk, keyVals_cons]
          rw [if_pos hk.symm]
          simp [List.append_assoc]
        · simp only [Function.comp_apply, if_neg hk, keyVals_cons]
          rw [if_neg (fun hh => hk hh.symm)]
      · unfold droppingKeys
        rw [List.filter_cons]
        simp [hmem]
    · rw [addToBuckets_notMem acc p.1 p.2 hmem]
      have hnd' : (bKeys (acc ++ [(p.1, [p.2])])).Nodup := by
        rw [bKeys_append]
        simp [List.nodup_append, hnd, hmem]
      rw [ih _ hnd']
      rw [bKeys_append]
      have hdrop : droppingKeys (p :: rest) (bKeys acc) = p :: droppingKeys rest (bKeys acc) := by
        unfold droppingKeys
        rw [List.filter_cons]
        simp [hmem]
      rw [hdrop]
      rw [show groupPairs (p :: droppingKeys rest (bKeys acc))
          = (p.1, p.2 :: keyVals (droppingKeys rest (bKeys acc)) p.1)
              :: groupPairs ((droppingKeys rest (bKeys acc)).filter
                  (fun q => !decide (q.1 = p.1))) from by rw [groupPairs]]
      rw [keyVals_droppingKeys rest (bKeys acc) p.1 hmem]
      rw [droppingKeys_snoc]
      have hext : extendAcc (acc ++ [(p.1, [p.2])]) rest
          = extendAcc acc rest ++ [(p.1, [p.2] ++ keyVals rest p.1)] := by
        unfold extendAcc
        rw [List.map_append]
        rfl
      rw [hext]
      have hext2 : extendAcc acc (p :: rest) = extendAcc acc rest := by
        unfold extendAcc
        apply List.map_congr_left
        intro kv hkv
        rw [keyVals_cons]
        rw [if_neg]
        intro hh
        exact hmem (hh ▸ List.mem_map_of_mem Prod.fst hkv)
      rw [hext2]
      simp [List.append_assoc]

theorem buildBuckets_ok (fnames : List String) :
    ∀ (ps : List (Key × String)), extractPairs fnames = some ps →
      ∀ acc, buildBuckets fnames acc
        = .ok (ps.foldl (fun b p => addToBuckets b p.1 p.2) acc) := by
  induction fnames with
  | nil =>
    intro ps h acc
    simp only [extractPairs, Option.some.injEq] at h
    subst h
    rfl
  | cons fn rest ih =>
    intro ps h acc
    rcases hk : extractKey fn with _ | k
    · rw [extractPairs, hk] at h
      exact absurd h (by simp)
    · rw [extractPairs, hk] at h
      rcases hr : extractPairs rest with _ | ps'
      · rw [hr] at h
        exact absurd h (by simp)
      · rw [hr] at h
        simp only [Option.some.injEq] at h
        subst h
        simp only [buildBuckets, hk]
        rw [ih ps' hr]
        rfl

theorem buildBuckets_groupPairs (fnames : List String) (ps : List (Key × String))
    (h : extractPairs fnames = some ps) :
    buildBuckets fnames [] = .ok (groupPairs ps) := by
  rw [buildBuckets_ok fnames ps h []]
  congr 1
  rw [foldAdd_eq ps [] (by simp [bKeys])]
  have h1 : extendAcc [] ps = [] := rfl
  have h2 : droppingKeys ps (bKeys []) = ps := by
    unfold droppingKeys bKeys
    simp
  rw [h1, h2, List.nil_append]

theorem buildBuckets_error (fnames : List String) :
    ∀ (fn : String), fn ∈ fnames → extractKey fn = none →
      ∀ acc, buildBuckets fnames acc = .error .malformedName := by
  induction fnames with
  | nil =>
    intro fn h
    exact absurd h (List.not_mem_nil fn)
  | cons f rest ih =>
    intro fn hmem hfail acc
    rcases List.mem_cons.mp hmem with h | h
    · subst h
      simp only [buildBuckets, hfail]
    · rcases hf : extractKey f with _ | k
      · simp only [buildBuckets, hf]
      · simp only [buildBuckets, hf]
        exact ih fn h hfail _

/-- Claim C9: grouping the empty list of filenames returns the empty
mapping, and it stays an empty mapping (no unwrapping happens) even when
the single-group collapse flag `return_single` is set: the unwrap requires
exactly one bucket, and an empty grouping has none. -/
theorem c9_empty_grouping :
    _groupby_match [] true = .ok (.dict [])
      ∧ _groupby_match [] false = .ok (.dict []) :=
  ⟨rfl, rfl⟩

/-- Claim C4, counterexample: the filename
`source-a_desc-b_space-c_den-1|_x` does not conform to the pattern the
claim describes — its den value `1|` is not digits followed by letters from
the set k, m (`specExtractKey`, the claim's pattern, rejects it) — yet
`_groupby_match` does not raise: the source's character class `[k|m]`
contains a literal pipe, so the filename is grouped under the key
("a", "b", "c", "1|"). -/
theorem c4_counterexample :
    specExtractKey "source-a_desc-b_space-c_den-1|_x" = none
      ∧ _groupby_match ["source-a_desc-b_space-c_den-1|_x"] false
          = .ok (.dict [(("a", "b", "c", "1|"),
              .single "source-a_desc-b_space-c_den-1|_x")]) := by
  constructor
  · rfl
  · rfl

/-- Claim C4, amended: for every list of filenames containing at least one
filename in which the source's pattern does not occur (`extractKey` is
`none`; the pattern is the four labelled segments with a den/res value of
digits followed by 1-2 characters from the class `[k|m]`, pipe included),
grouping raises `MalformedNameError` — the whole batch aborts with the
error and no partial grouping is produced. -/
theorem c4_malformed_aborts (fnames : List String) (fn : String) (b : Bool)
    (hmem : fn ∈ fnames) (hfail : extractKey fn = none) :
    _groupby_match fnames b = .error .malformedName := by
  simp only [_groupby_match, buildBuckets_error fnames fn hmem hfail []]

theorem c4_witness :
    "bogus" ∈ ["source-a_desc-b_space-c_den-10k_x", "bogus"]
      ∧ extractKey "bogus" = none
      ∧ _groupby_match ["source-a_desc-b_space-c_den-10k_x", "bogus"] false
          = .error .malformedName :=
  ⟨by decide, by rfl,
    c4_malformed_aborts _ "bogus" false (by decide) (by rfl)⟩

/-- Claim C6: for every list of filenames (whose keys all extract, `ps`
being the filename list paired with its keys), the Grouping Engine returns
the mapping whose keys appear in first-seen order and whose buckets list
the members in order (`groupPairs`), each bucket collapsed to its single
member when it has exactly one element and kept as the ordered list
otherwise (`collapseVal`); and when `return_single` is set and the grouping
produced exactly one bucket, that bucket's collapsed value is returned
directly instead of the mapping. -/
theorem c6_grouping_shape (fnames : List String) (ps : List (Key × String))
    (h : extractPairs fnames = some ps) :
    _groupby_match fnames false
        = .ok (.dict ((groupPairs ps).map (fun kv => (kv.1, collapseVal kv.2))))
  ∧ ∀ k v, groupPairs ps = [(k, v)] →
      _groupby_match fnames true = .ok (.value (collapseVal v)) := by
  have hb := buildBuckets_groupPairs fnames ps h
  constructor
  · simp only [_groupby_match, hb]
    simp
  · intro k v hgp
    simp only [_groupby_match, hb, hgp]
    simp

theorem c6_witness :
    (extractPairs ["source-a_desc-b_space-c_den-10k_L.gii",
        "source-a_desc-b_space-c_den-10k_R.gii"]
      = some [(("a", "b", "c", "10k"), "source-a_desc-b_space-c_den-10k_L.gii"),
              (("a", "b", "c", "10k"), "source-a_desc-b_space-c_den-10k_R.gii")])
  ∧ (_groupby_match ["source-a_desc-b_space-c_den-10k_L.gii",
        "source-a_desc-b_space-c_den-10k_R.gii"] false
      = .ok (.dict ((groupPairs [(("a", "b", "c", "10k"), "source-a_desc-b_space-c_den-10k_L.gii"),
              (("a", "b", "c", "10k"), "source-a_desc-b_space-c_den-10k_R.gii")]).map
            (fun kv => (kv.1, collapseVal kv.2)))))
  ∧ (∀ k v, groupPairs [(("a", "b", "c", "10k"), "source-a_desc-b_space-c_den-10k_L.gii"),
              (("a", "b", "c", "10k"), "source-a_desc-b_space-c_den-10k_R.gii")] = [(k, v)] →
      _groupby_match ["source-a_desc-b_space-c_den-10k_L.gii",
        "source-a_desc-b_space-c_den-10k_R.gii"] true = .ok (.value (collapseVal v))) := by
  refine ⟨by rfl, ?_, ?_⟩
  · exact (c6_grouping_shape _ _ (by rfl)).1
  · exact (c6_grouping_shape _ _ (by rfl)).2

/-! ## Fetch lemmas and the fetch claims -/

theorem fetchLoop_nil (env : FetchEnv) (d : String) (fs : List String) :
    fetchLoop env d [] fs = (.ok [], fs, []) := rfl

theorem fetchLoop_ok (env : FetchEnv) (d : String) :
    ∀ (recs : List Record) (fs ps fs' : List String) (effs : List Effect),
      fetchLoop env d recs fs = (.ok ps, fs', effs) →
      ps = recs.map (expectedPath d)
        ∧ (∀ p ∈ ps, p ∈ fs') ∧ (∀ x ∈ fs, x ∈ fs') := by
  intro recs
  induction recs with
  | nil =>
    intro fs ps fs' effs h
    rw [fetchLoop_nil] at h
    simp only [Prod.mk.injEq, Except.ok.injEq] at h
    obtain ⟨h1, h2, _⟩ := h
    subst h1; subst h2
    exact ⟨rfl, by simp, fun x hx => hx⟩
  | cons r rest ih =>
    intro fs ps fs' effs h
    simp only [fetchLoop] at h
    by_cases hex : expectedPath d r ∈ fs
    · rw [if_pos hex] at h
      rcases ht : fetchLoop env d rest fs with ⟨res, fs2, effs2⟩
      rw [ht] at h
      rcases res with e | ps'
      · simp [Except.map] at h
      · simp only [Except.map, Prod.mk.injEq, Except.ok.injEq] at h
        obtain ⟨h1, h2, _⟩ := h
        obtain ⟨hp, hmem, hsub⟩ := ih fs ps' fs2 effs2 ht
        subst h1; subst h2
        refine ⟨by rw [hp, List.map_cons], ?_, hsub⟩
        intro p hpmem
        rcases List.mem_cons.mp hpmem with h | h
        · exact h ▸ hsub _ hex
        · exact hmem p h
    · rw [if_neg hex] at h
      by_cases hok : env.fetchOk r.url r.checksum
      · rw [if_pos hok] at h
        rcases ht : fetchLoop env d rest (expectedPath d r :: fs) with ⟨res, fs2, effs2⟩
        rw [ht] at h
        rcases res with e | ps'
        · simp [Except.map] at h
        · simp only [Except.map, Prod.mk.injEq, Except.ok.injEq] at h
          obtain ⟨h1, h2, _⟩ := h
          obtain ⟨hp, hmem, hsub⟩ := ih _ ps' fs2 effs2 ht
          subst h1; subst h2
          refine ⟨by rw [hp, List.map_cons], ?_, ?_⟩
          · intro p hpmem
            rcases List.mem_cons.mp hpmem with h | h
            · exact h ▸ hsub _ (by simp)
            · exact hmem p h
          · intro x hx
            exact hsub x (by simp [hx])
      · rw [if_neg hok] at h
        simp at h

theorem fetchLoop_cached (env : FetchEnv) (d : String) :
    ∀ (recs : List Record) (fs : List String),
      (∀ r ∈ recs, expectedPath d r ∈ fs) →
      fetchLoop env d recs fs
        = (.ok (recs.map (expectedPath d)), fs,
            recs.map (fun r => .checkExists (expectedPath d r))) := by
  intro recs
  induction recs with
  | nil => intro fs _; rfl
  | cons r rest ih =>
    intro fs h
    have hr : expectedPath d r ∈ fs := h r (by simp)
    simp only [fetchLoop, if_pos hr, ih fs (fun x hx => h x (by simp [hx]))]
    simp [Except.map]

/-- Claim C5: calling fetch with every constraint attribute absent raises
`ValidationError` (Python's `ValueError`), the filesystem is untouched and
the effect trace is empty — no token resolution, no cache-root resolution,
no catalog read, no session construction, no existence check and no
network call happens before the rejection. -/
theorem c5_no_constraints_rejected (env : FetchEnv) (fs : List String)
    (targ darg : Option String) (rs : Bool) :
    fetch_annot env fs kwEmpty targ darg rs = (.error .validation, fs, []) := rfl

/-- Claim C7: if a fetch call succeeds, the identical repeat call on the
resulting filesystem performs zero invocations of the external fetch
capability (no `fetchFile` effect occurs in its trace), leaves the
filesystem unchanged and returns the identical grouped paths. -/
theorem c7_cache_idempotent (env : FetchEnv) (fs0 : List String) (kw : Kwargs)
    (targ darg : Option String) (rs : Bool) (out : GroupOut)
    (fs1 : List String) (tr1 : List Effect)
    (h : fetch_annot env fs0 kw targ darg rs = (.ok out, fs1, tr1)) :
    ∃ tr2, fetch_annot env fs1 kw targ darg rs = (.ok out, fs1, tr2)
      ∧ ∀ u, Effect.fetchFile u ∉ tr2 := by
  by_cases hsup : suppliedAny kw
  · rw [fetch_annot, if_pos hsup] at h
    rcases ht : fetchLoop env (resolveDataDir darg env.envDataDir)
        (resolvedInfo env.catalog (resolveToken targ env.envToken) kw) fs0
      with ⟨res, fsA, effsA⟩
    rcases res with e | ps
    · rw [ht] at h
      simp at h
    · rw [ht] at h
      simp only [Prod.mk.injEq] at h
      obtain ⟨hgb, hfs, _⟩ := h
      subst hfs
      obtain ⟨hp, hmem, _⟩ := fetchLoop_ok env _ _ fs0 ps fsA effsA ht
      have hcov : ∀ r ∈ resolvedInfo env.catalog (resolveToken targ env.envToken) kw,
          expectedPath (resolveDataDir darg env.envDataDir) r ∈ fsA := by
        intro r hrm
        exact hmem _ (hp ▸ List.mem_map_of_mem _ hrm)
      refine ⟨preEffects
          ++ (resolvedInfo env.catalog (resolveToken targ env.envToken) kw).map
              (fun r => .checkExists (expectedPath (resolveDataDir darg env.envDataDir) r))
          ++ warnEffects (resolvedInfo env.catalog (resolveToken targ env.envToken) kw),
        ?_, ?_⟩
      · rw [fetch_annot, if_pos hsup]
        rw [fetchLoop_cached env _ _ fsA hcov]
        rw [← hp]
        dsimp only
        rw [hgb]
      · intro u
        simp only [List.mem_append, preEffects, List.mem_map, warnEffects]
        rintro ((hc | hc) | hc)
        · simp at hc
        · obtain ⟨r, _, hr⟩ := hc
          exact absurd hr (by simp)
        · by_cases hw : (resolvedInfo env.catalog (resolveToken targ env.envToken) kw).any
              (fun r => (decide (r.source = some "beliveau2017")
                || decide (r.source = some "norgaard2021"))
                && decide (r.space = some "MNI152")) = true
          · rw [if_pos hw] at hc
            simp at hc
          · rw [if_neg hw] at hc
            simp at hc
  · rw [fetch_annot, if_neg hsup] at h
    simp at h

/-! ## Claim C10 -/

/-- Claim C10: in fetch, a resolved token equal to the empty string (the
only falsy Python string) is treated exactly like an absent token:
`return_restricted` computes to `False` in both cases, the record set
matched by fetch is identical to the no-credentials case, and every record
it contains is unrestricted. -/
theorem c10_empty_token_excludes_restricted (catalog : List Record) (kw : Kwargs) :
    returnRestrictedOf (some "") = returnRestrictedOf none
  ∧ resolvedInfo catalog (some "") kw = resolvedInfo catalog none kw
  ∧ ∀ r ∈ resolvedInfo catalog (some "") kw, r.restricted = false := by
  refine ⟨rfl, rfl, ?_⟩
  intro r hr
  rw [resolvedInfo, mem_match_annot] at hr
  have h1 := hr.1
  simp only [returnRestrictedOf, get_dataset_info] at h1
  simp at h1
  exact h1.2

/-! ## Claim C8 -/

/-- The side-catalog entry used by the C8 evaluation. -/
def c8side : SideRec := ⟨"a", "b", "c", some "10k", none, "The a map"⟩

/-- Claim C8 (code-bug evaluation): when the requested keys contain one
that is absent from the side catalog, `get_annotations_desc` emits the
warning message but then *aborts with a TypeError* — the source executes
`raise warnings.warn(...)`, and since `warnings.warn` returns `None`,
`raise None` is itself an error — instead of dropping the unknown key
non-fatally; the same call without the unknown key returns the
descriptions, showing the remainder of the function (which filters to the
available keys) is unreachable dead code whenever a key is unknown. -/
theorem c8_unknown_key_raises :
    get_annotations_desc [c8side] [("a", "b", "c", "10k"), ("z", "z", "z", "1k")]
        = (.error .typeError, ["Annotations are not available."])
  ∧ get_annotations_desc [c8side] [("a", "b", "c", "10k")]
        = (.ok [(("a", "b", "c", "10k"), "The a map")], []) :=
  ⟨rfl, rfl⟩

/-! ## Concrete witnesses -/

/-- First record of the C3 witness catalog. -/
def c3r1 : Record := { baseRec with den := some "10k", fname := "f1" }

/-- Second record of the C3 witness catalog. -/
def c3r2 : Record := { baseRec with den := some "32k", fname := "f2" }

theorem c3_witness :
    (∀ r ∈ [c3r1, c3r2], r.den = none ∨ r.res = none)
  ∧ ((denresSet (kwDenOnly (.str "10k")) ≠ [] →
        ∀ r ∈ _match_annot [c3r1, c3r2] (kwDenOnly (.str "10k")),
          ∃ v, denOrRes r = some v ∧ v ∈ denresSet (kwDenOnly (.str "10k")))
      ∧ ((kwDenOnly (.str "10k")).den = none → (kwDenOnly (.str "10k")).res = none →
          _match_annot [c3r1, c3r2] (kwDenOnly (.str "10k"))
            = [c3r1, c3r2].filter
                (fun r => sixKeysOk (normTags (kwDenOnly (.str "10k"))) r))) :=
  ⟨by decide, c3_denres_pooling [c3r1, c3r2] (kwDenOnly (.str "10k")) (by decide)⟩

/-- The record of the C7 witness catalog. -/
def c7rec : Record :=
  { baseRec with
    source := some "abc2020", desc := some "density", space := some "fsaverage",
    den := some "10k",
    fname := "source-abc2020_desc-density_space-fsaverage_den-10k_feature.func.gii",
    relPath := "rp", url := "u1", checksum := "ck" }

/-- The C7 witness environment: one-record catalog, fetches always
succeed. -/
def c7env : FetchEnv := ⟨none, none, [c7rec], fun _ _ => true⟩

/-- The expected cache path of `c7rec`. -/
def c7path : String :=
  "~/neuromaps-data/annotations/rp/source-abc2020_desc-density_space-fsaverage_den-10k_feature.func.gii"

/-- The trace of the first (downloading) C7 witness call. -/
def c7tr : List Effect :=
  [.getToken, .getDataDir, .readCatalog, .getSession,
    .checkExists c7path, .fetchFile "u1", .movedTo c7path]

theorem c7_witness :
    fetch_annot c7env [] (kwSourceOnly (.str "abc2020")) none none true
        = (.ok (.value (.single c7path)), [c7path], c7tr)
  ∧ ∃ tr2, fetch_annot c7env [c7path] (kwSourceOnly (.str "abc2020")) none none true
        = (.ok (.value (.single c7path)), [c7path], tr2)
      ∧ ∀ u, Effect.fetchFile u ∉ tr2 :=
  ⟨rfl, c7_cache_idempotent c7env [] (kwSourceOnly (.str "abc2020")) none none true
    (.value (.single c7path)) [c7path] c7tr rfl⟩

/-- The catalog of the C10 witness: one restricted, one open record. -/
def c10cat : List Record :=
  [{ baseRec with restricted := true, fname := "r1" },
   { baseRec with fname := "r2" }]

theorem c10_witness :
    returnRestrictedOf (some "") = returnRestrictedOf none
  ∧ resolvedInfo c10cat (some "") kwEmpty = resolvedInfo c10cat none kwEmpty
  ∧ ∀ r ∈ resolvedInfo c10cat (some "") kwEmpty, r.restricted = false :=
  c10_empty_token_excludes_restricted c10cat kwEmpty

end Neuromaps
